import Mathlib

/-!
Verification of the filter-presets route (list and create handlers).

The development embeds the route handlers in
`src/src/app/api/admin/filter-presets/route.ts` as executable Lean
functions: the JSON values carried in `filterConfig`, the serialize and
parse pair used by the handlers (JSON.stringify and JSON.parse of the
JavaScript runtime, modelled as an executable codec with a proved round
trip), the tenant context, the query-string decoding, the where-clause,
the three-key descending ordering, and the two handlers themselves with
an explicit storage-operation trace.
-/

/-! ## JSON values

JavaScript values travelling through `request.json()`, `JSON.stringify`
and `JSON.parse`. Numbers are modelled as integers. -/

mutual

inductive Json : Type where
  | null : Json
  | bool (b : Bool) : Json
  | num (n : Int) : Json
  | str (s : String) : Json
  | arr (items : JsonList) : Json
  | obj (fields : JsonObj) : Json

inductive JsonList : Type where
  | nil : JsonList
  | cons (hd : Json) (tl : JsonList) : JsonList

inductive JsonObj : Type where
  | nil : JsonObj
  | cons (key : String) (val : Json) (tl : JsonObj) : JsonObj

end

deriving instance DecidableEq for Json

/-! ## Encoding (JSON.stringify) -/

/-- One character of a JSON string body, escaping quote and backslash. -/
def escapeChar (c : Char) : List Char :=
  if c = '"' || c = '\\' then ['\\', c] else [c]

def escapeChars : List Char → List Char
  | [] => []
  | c :: cs => escapeChar c ++ escapeChars cs

def digitChar (d : Nat) : Char := Char.ofNat (48 + d)

/-- Decimal digits of `n`, most significant first, with explicit fuel so
that the definition is structurally recursive. -/
def natCharsAux : Nat → Nat → List Char
  | 0, _ => []
  | fuel + 1, n =>
    if n < 10 then [digitChar n]
    else natCharsAux fuel (n / 10) ++ [digitChar (n % 10)]

def natChars (n : Nat) : List Char := natCharsAux (n + 1) n

def intChars (n : Int) : List Char :=
  if n < 0 then '-' :: natChars n.natAbs else natChars n.natAbs

/-- Keyword spellings emitted for the three JSON atoms. -/
def nullChars : List Char := "null".data

def trueChars : List Char := "true".data

def falseChars : List Char := "false".data

mutual

def encodeJson : Json → List Char
  | .null => nullChars
  | .bool true => trueChars
  | .bool false => falseChars
  | .num n => intChars n
  | .str s => '"' :: escapeChars s.data ++ ['"']
  | .arr .nil => ['[', ']']
  | .arr (.cons x tl) => '[' :: encodeJson x ++ encodeItems tl ++ [']']
  | .obj .nil => ['\x7b', '\x7d']
  | .obj (.cons k v tl) =>
    '\x7b' :: ('"' :: escapeChars k.data ++ '"' :: ':' :: encodeJson v) ++
      encodeFields tl ++ ['\x7d']
termination_by structural j => j

def encodeItems : JsonList → List Char
  | .nil => []
  | .cons x tl => ',' :: encodeJson x ++ encodeItems tl
termination_by structural l => l

def encodeFields : JsonObj → List Char
  | .nil => []
  | .cons k v tl => ',' :: ('"' :: escapeChars k.data ++ '"' :: ':' :: encodeJson v) ++ encodeFields tl
termination_by structural o => o

end

/-- Encoding of one object field, quoted key then colon then value. -/
def encodeField (k : String) (v : Json) : List Char :=
  '"' :: escapeChars k.data ++ '"' :: ':' :: encodeJson v

/-! ## Parsing (JSON.parse) -/

def isDigitCh (c : Char) : Bool := 48 ≤ c.toNat && c.toNat ≤ 57

def takeDigits : List Char → List Char × List Char
  | [] => ([], [])
  | c :: cs =>
    if isDigitCh c then
      let p := takeDigits cs
      (c :: p.1, p.2)
    else ([], c :: cs)

def digitsVal : List Char → Nat → Nat
  | [], acc => acc
  | c :: cs, acc => digitsVal cs (acc * 10 + (c.toNat - 48))

def parseNat (input : List Char) : Option (Nat × List Char) :=
  let p := takeDigits input
  if p.1 = [] then none else some (digitsVal p.1 0, p.2)

/-- Strip an expected literal run of characters from the input. -/
def stripLead : List Char → List Char → Option (List Char)
  | [], input => some input
  | _ :: _, [] => none
  | p :: ps, c :: cs => if c = p then stripLead ps cs else none

/-- Body of a JSON string after the opening quote, undoing the escapes. -/
def parseStrBody : List Char → Option (List Char × List Char)
  | [] => none
  | c :: rest =>
    if c = '"' then some ([], rest)
    else if c = '\\' then
      match rest with
      | [] => none
      | c2 :: rest2 =>
        match parseStrBody rest2 with
        | some (s, r) => some (c2 :: s, r)
        | none => none
    else
      match parseStrBody rest with
      | some (s, r) => some (c :: s, r)
      | none => none

mutual

def parseVal : Nat → List Char → Option (Json × List Char)
  | 0, _ => none
  | _ + 1, [] => none
  | fuel + 1, c :: rest =>
    if c = 'n' then (stripLead ['u', 'l', 'l'] rest).map (fun r => (.null, r))
    else if c = 't' then (stripLead ['r', 'u', 'e'] rest).map (fun r => (.bool true, r))
    else if c = 'f' then (stripLead ['a', 'l', 's', 'e'] rest).map (fun r => (.bool false, r))
    else if c = '"' then (parseStrBody rest).map (fun p => (.str (String.mk p.1), p.2))
    else if c = '-' then (parseNat rest).map (fun p => (.num (-(p.1 : Int)), p.2))
    else if c = '[' then
      if rest.head? = some ']' then some (.arr .nil, rest.tail)
      else (parseItems fuel rest).map (fun p => (.arr p.1, p.2))
    else if c = '\x7b' then
      if rest.head? = some '\x7d' then some (.obj .nil, rest.tail)
      else (parseFields fuel rest).map (fun p => (.obj p.1, p.2))
    else if isDigitCh c then (parseNat (c :: rest)).map (fun p => (.num (p.1 : Int), p.2))
    else none
termination_by structural fuel => fuel

def parseItems : Nat → List Char → Option (JsonList × List Char)
  | 0, _ => none
  | fuel + 1, input =>
    (parseVal fuel input).bind (fun p =>
      if p.2.head? = some ',' then
        (parseItems fuel p.2.tail).map (fun q => (.cons p.1 q.1, q.2))
      else if p.2.head? = some ']' then some (.cons p.1 .nil, p.2.tail)
      else none)
termination_by structural fuel => fuel

def parseFields : Nat → List Char → Option (JsonObj × List Char)
  | 0, _ => none
  | fuel + 1, input =>
    if input.head? = some '"' then
      (parseStrBody input.tail).bind (fun pk =>
        if pk.2.head? = some ':' then
          (parseVal fuel pk.2.tail).bind (fun pv =>
            if pv.2.head? = some ',' then
              (parseFields fuel pv.2.tail).map
                (fun q => (.cons (String.mk pk.1) pv.1 q.1, q.2))
            else if pv.2.head? = some '\x7d' then
              some (.cons (String.mk pk.1) pv.1 .nil, pv.2.tail)
            else none)
        else none)
    else none
termination_by structural fuel => fuel

end

/-- JSON.parse on a whole text: the value must consume the entire input. -/
def parseJsonText (t : List Char) : Option Json :=
  match parseVal (t.length + 1) t with
  | some r => if r.2 = [] then some r.1 else none
  | none => none

/-- The input does not begin with a decimal digit. -/
def notDigitHead : List Char → Prop
  | [] => True
  | c :: _ => isDigitCh c = false

/-! Sizes of JSON values, used as fuel bounds for the parser. -/

mutual

def sizeJ : Json → Nat
  | .null => 1
  | .bool _ => 1
  | .num _ => 1
  | .str _ => 1
  | .arr xs => 1 + sizeL xs
  | .obj fs => 1 + sizeF fs
termination_by structural j => j

def sizeL : JsonList → Nat
  | .nil => 0
  | .cons x tl => 1 + sizeJ x + sizeL tl
termination_by structural l => l

def sizeF : JsonObj → Nat
  | .nil => 0
  | .cons _ v tl => 1 + sizeJ v + sizeF tl
termination_by structural o => o

end

/-! ## JavaScript value helpers used by the handlers -/

/-- JavaScript truthiness of a JSON value: null, false, 0 and the empty
string are falsy; arrays and objects (even empty) are truthy. -/
def jsTruthy : Json → Bool
  | .null => false
  | .bool b => b
  | .num n => !(n == 0)
  | .str s => !s.isEmpty
  | .arr _ => true
  | .obj _ => true

def lookupField : JsonObj → String → Option Json
  | .nil, _ => none
  | .cons k v tl, key => if k = key then some v else lookupField tl key

/-- Property access `value.key` on a JSON value: defined for objects,
undefined for everything else. -/
def getField : Json → String → Option Json
  | .obj fs, key => lookupField fs key
  | _, _ => none

/-! ## Data model of the route

The store models the `filter_presets` table together with the `users`
rows reachable through the `creator` relation, plus the id counter and
the clock used for fresh rows. -/

/-- The persisted `filterConfig` column. The create handler always writes
serialized text; the read path defensively accepts an already structured
value, mirroring the `typeof p.filterConfig === "string"` check. -/
inductive StoredConfig : Type where
  | text (chars : List Char)
  | structured (value : Json)
deriving DecidableEq

structure PresetRow where
  id : Nat
  tenantId : String
  name : String
  description : Option String
  entityType : String
  filterConfig : StoredConfig
  filterLogic : String
  isPublic : Bool
  isDefault : Bool
  icon : Option String
  color : Option String
  usageCount : Nat
  lastUsedAt : Option Nat
  createdAt : Nat
  updatedAt : Nat
  createdBy : String
deriving DecidableEq

structure UserRow where
  id : String
  name : String
  image : Option String
deriving DecidableEq

structure Store where
  presets : List PresetRow
  users : List UserRow
  nextId : Nat
  now : Nat
deriving DecidableEq

/-- Identity attached to the request by the tenant-context wrapper; a
missing context or missing field is `none`. -/
structure TenantCtx where
  userId : Option String
  tenantId : Option String
deriving DecidableEq

/-- JavaScript truthiness of an optional string: absent and empty are
falsy (`!ctx?.userId`). -/
def strTruthy : Option String → Bool
  | none => false
  | some s => !s.isEmpty

def ctxValid (ctx : TenantCtx) : Bool := strTruthy ctx.userId && strTruthy ctx.tenantId

def ctxUserId (ctx : TenantCtx) : String := ctx.userId.getD ""

def ctxTenantId (ctx : TenantCtx) : String := ctx.tenantId.getD ""

/-- One access to the storage layer; the handlers are annotated with the
trace of reads and writes they perform. -/
inductive StorageOp : Type where
  | read
  | write
deriving DecidableEq

/-- Outcomes produced by the response helper (`respond.*`). -/
inductive ApiResponse (α : Type) : Type where
  | ok (data : α)
  | created (data : α)
  | badRequest (msg : String)
  | unauthorized
  | conflict (msg : String)
  | serverError (msg : String)
deriving DecidableEq

/-! ## The list handler (GET) -/

/-- Raw query-string parameters; `none` models an absent parameter. -/
structure ListQuery where
  entityType : Option String
  isPublic : Option String
  includeShared : Option String
deriving DecidableEq

/-- Decoding of `searchParams.get("entityType") || "users"`. -/
def queryEntityType (q : ListQuery) : String :=
  match q.entityType with
  | some s => if s.isEmpty then "users" else s
  | none => "users"

/-- Decoding of `searchParams.get("isPublic") === "true"`. -/
def queryIsPublic (q : ListQuery) : Bool := q.isPublic == some "true"

/-- Decoding of `searchParams.get("includeShared") !== "false"`. -/
def queryIncludeShared (q : ListQuery) : Bool := !(q.includeShared == some "false")

/-- The where-clause built by the list handler, as a predicate on rows. -/
def matchesWhere (tenantId userId entityType : String) (onlyPublic includeShared : Bool)
    (p : PresetRow) : Bool :=
  p.tenantId == tenantId && p.entityType == entityType &&
    (if onlyPublic then p.isPublic
     else if includeShared then p.isPublic || p.createdBy == userId
     else p.createdBy == userId)

def boolVal (b : Bool) : Nat := if b then 1 else 0

/-- The three-key comparison of the `orderBy` clause: `isDefault`
descending, then `usageCount` descending, then `createdAt` descending. -/
def keyGE (d1 : Bool) (u1 c1 : Nat) (d2 : Bool) (u2 c2 : Nat) : Bool :=
  decide (boolVal d2 < boolVal d1 ∨
    (boolVal d1 = boolVal d2 ∧ (u2 < u1 ∨ (u1 = u2 ∧ c2 ≤ c1))))

def rowGE (a b : PresetRow) : Bool :=
  keyGE a.isDefault a.usageCount a.createdAt b.isDefault b.usageCount b.createdAt

def insertSorted {α : Type} (le : α → α → Bool) (x : α) : List α → List α
  | [] => [x]
  | y :: ys => if le x y then x :: y :: ys else y :: insertSorted le x ys

/-- Sorting used to model the multi-key `orderBy` of `findMany`. -/
def insertionSort {α : Type} (le : α → α → Bool) : List α → List α
  | [] => []
  | x :: xs => insertSorted le x (insertionSort le xs)

/-- The rows matched by the list query (the `findMany` where-clause). -/
def getMatchedRows (db : Store) (ctx : TenantCtx) (q : ListQuery) : List PresetRow :=
  db.presets.filter
    (matchesWhere (ctxTenantId ctx) (ctxUserId ctx) (queryEntityType q)
      (queryIsPublic q) (queryIncludeShared q))

/-- The rows returned by `findMany`: matched, then ordered. -/
def getSortedRows (db : Store) (ctx : TenantCtx) (q : ListQuery) : List PresetRow :=
  insertionSort rowGE (getMatchedRows db ctx q)

/-- Reading the stored config back to a structured value: serialized text
is parsed, structured values pass through unchanged. -/
def readConfig : StoredConfig → Option Json
  | .text t => parseJsonText t
  | .structured j => some j

def findCreator (db : Store) (uid : String) : Option UserRow :=
  db.users.find? (fun u => u.id == uid)

/-- Shape of one element of the list response (the `select` clause:
no `tenantId`, no `createdBy`, plus the `creator` relation). -/
structure PresetView where
  id : Nat
  name : String
  description : Option String
  entityType : String
  filterConfig : Json
  filterLogic : String
  isPublic : Bool
  isDefault : Bool
  icon : Option String
  color : Option String
  usageCount : Nat
  lastUsedAt : Option Nat
  createdAt : Nat
  updatedAt : Nat
  creator : Option UserRow
deriving DecidableEq

/-- One row shaped for the list response; `none` when `JSON.parse` throws. -/
def rowToView (db : Store) (p : PresetRow) : Option PresetView :=
  match readConfig p.filterConfig with
  | some cfg =>
    some { id := p.id, name := p.name, description := p.description,
           entityType := p.entityType, filterConfig := cfg,
           filterLogic := p.filterLogic, isPublic := p.isPublic,
           isDefault := p.isDefault, icon := p.icon, color := p.color,
           usageCount := p.usageCount, lastUsedAt := p.lastUsedAt,
           createdAt := p.createdAt, updatedAt := p.updatedAt,
           creator := findCreator db p.createdBy }
  | none => none

def viewRows (db : Store) : List PresetRow → Option (List PresetView)
  | [] => some []
  | p :: ps =>
    match rowToView db p, viewRows db ps with
    | some v, some vs => some (v :: vs)
    | _, _ => none

/-- The GET handler: check identity, decode the query, run `findMany`,
shape the result. A parse failure inside the result mapping is caught by
the surrounding try-catch and reported as a server error. -/
def handleGET (db : Store) (ctx : TenantCtx) (q : ListQuery) :
    ApiResponse (List PresetView) × List StorageOp :=
  if ctxValid ctx then
    match viewRows db (getSortedRows db ctx q) with
    | some vs => (.ok vs, [.read])
    | none => (.serverError "Failed to fetch presets", [.read])
  else (.unauthorized, [])

/-! ## The create handler (POST) -/

/-- Fields destructured from the request body; `none` models an absent
field. -/
structure CreateBody where
  name : Option String
  description : Option String
  entityType : Option String
  filterConfig : Option Json
  isPublic : Option Bool
  icon : Option String
  color : Option String
deriving DecidableEq

/-- Truthiness test applied by the validation (`!name`). -/
def bodyNameOk (b : CreateBody) : Bool := strTruthy b.name

/-- Normalization `x || null` applied to the optional string fields. -/
def orNull : Option String → Option String
  | some s => if s.isEmpty then none else some s
  | none => none

/-- The `findFirst` uniqueness pre-check. -/
def findExisting (db : Store) (t n u : String) : Option PresetRow :=
  db.presets.find? (fun p => p.tenantId == t && p.name == n && p.createdBy == u)

/-- Evaluation of `filterConfig.logic || "AND"`, landing in the `String`
column `filterLogic`; a truthy non-string value would be rejected by the
storage layer, which the surrounding try-catch turns into a server
error (`none` here). -/
def deriveFilterLogic (cfg : Json) : Option String :=
  match getField cfg "logic" with
  | some v =>
    if jsTruthy v then
      match v with
      | .str s => some s
      | _ => none
    else some "AND"
  | none => some "AND"

/-- The row passed to `prisma.filter_presets.create`. -/
def mkRow (db : Store) (t u : String) (b : CreateBody) (cfg : Json) (logic : String) :
    PresetRow :=
  { id := db.nextId
    tenantId := t
    name := b.name.getD ""
    description := orNull b.description
    entityType := b.entityType.getD "users"
    filterConfig := .text (encodeJson cfg)
    filterLogic := logic
    isPublic := b.isPublic.getD false
    isDefault := false
    icon := orNull b.icon
    color := orNull b.color
    usageCount := 0
    lastUsedAt := none
    createdAt := db.now
    updatedAt := db.now
    createdBy := u }

/-- Shape of the create response: every row field (`...preset`), with
`filterConfig` replaced by its parsed form, plus the included `creator`. -/
structure CreatedView where
  row : PresetRow
  filterConfig : Json
  creator : Option UserRow
deriving DecidableEq

/-- The POST handler: check identity, validate, run the uniqueness
pre-check, derive `filterLogic`, insert, and echo the created row. -/
def handlePOST (db : Store) (ctx : TenantCtx) (b : CreateBody) :
    ApiResponse CreatedView × Store × List StorageOp :=
  if ctxValid ctx then
    match b.filterConfig with
    | none => (.badRequest "Missing required fields: name, filterConfig", db, [])
    | some cfg =>
      if bodyNameOk b && jsTruthy cfg then
        match findExisting db (ctxTenantId ctx) (b.name.getD "") (ctxUserId ctx) with
        | some _ => (.conflict "Preset with this name already exists", db, [.read])
        | none =>
          match deriveFilterLogic cfg with
          | some logic =>
            let row := mkRow db (ctxTenantId ctx) (ctxUserId ctx) b cfg logic
            let db2 : Store :=
              { db with presets := db.presets ++ [row], nextId := db.nextId + 1 }
            match readConfig row.filterConfig with
            | some parsed =>
              (.created { row := row, filterConfig := parsed,
                          creator := findCreator db2 row.createdBy }, db2, [.read, .write])
            | none => (.serverError "Failed to create preset", db2, [.read, .write])
          | none => (.serverError "Failed to create preset", db, [.read])
      else (.badRequest "Missing required fields: name, filterConfig", db, [])
  else (.unauthorized, db, [])

/-! ## Correctness of the codec -/

theorem stripLead_append (ps rest : List Char) : stripLead ps (ps ++ rest) = some rest := by
  induction ps with
  | nil => rfl
  | cons p ps ih => simp [stripLead, ih]

theorem digitChar_toNat (d : Nat) (h : d < 10) : (digitChar d).toNat = 48 + d := by
  interval_cases d <;> decide

theorem isDigitCh_digitChar (d : Nat) (h : d < 10) : isDigitCh (digitChar d) = true := by
  simp [isDigitCh, digitChar_toNat d h]
  omega

theorem natCharsAux_ne_nil (fuel n : Nat) (h : n < fuel) : natCharsAux fuel n ≠ [] := by
  induction fuel generalizing n with
  | zero => omega
  | succ fuel ih =>
    simp only [natCharsAux]
    split
    · simp
    · simp

theorem natCharsAux_digits (fuel n : Nat) (h : n < fuel) :
    ∀ c ∈ natCharsAux fuel n, isDigitCh c = true := by
  induction fuel generalizing n with
  | zero => omega
  | succ fuel ih =>
    intro c hc
    simp only [natCharsAux] at hc
    by_cases h10 : n < 10
    · rw [if_pos h10] at hc
      simp at hc
      subst hc
      exact isDigitCh_digitChar n h10
    · rw [if_neg h10] at hc
      rcases List.mem_append.mp hc with hl | hr
      · have hn : n / 10 < fuel := by
          have := Nat.div_lt_self (show 0 < n by omega) (show 1 < 10 by omega)
          omega
        exact ih (n / 10) hn c hl
      · simp at hr
        subst hr
        exact isDigitCh_digitChar _ (Nat.mod_lt n (by omega))

theorem digitsVal_append (l1 l2 : List Char) : ∀ acc,
    digitsVal (l1 ++ l2) acc = digitsVal l2 (digitsVal l1 acc) := by
  induction l1 with
  | nil => intro acc; rfl
  | cons c cs ih =>
    intro acc
    simp only [List.cons_append, digitsVal]
    exact ih _

theorem digitsVal_natCharsAux (fuel n : Nat) (h : n < fuel) : ∀ acc,
    digitsVal (natCharsAux fuel n) acc = acc * 10 ^ (natCharsAux fuel n).length + n := by
  induction fuel generalizing n with
  | zero => omega
  | succ fuel ih =>
    intro acc
    by_cases h10 : n < 10
    · simp only [natCharsAux, if_pos h10, digitsVal, List.length_cons, List.length_nil,
        digitChar_toNat n h10, pow_succ, pow_zero, one_mul]
      omega
    · have hn : n / 10 < fuel := by
        have := Nat.div_lt_self (show 0 < n by omega) (show 1 < 10 by omega)
        omega
      simp only [natCharsAux, if_neg h10, digitsVal_append]
      rw [ih (n / 10) hn acc]
      simp only [digitsVal, digitChar_toNat (n % 10) (Nat.mod_lt n (by omega)),
        List.length_append, List.length_cons, List.length_nil]
      rw [pow_succ]
      have hx : acc * (10 ^ (natCharsAux fuel (n / 10)).length * 10) =
          acc * 10 ^ (natCharsAux fuel (n / 10)).length * 10 := by ring
      rw [hx]
      generalize acc * 10 ^ (natCharsAux fuel (n / 10)).length = K
      omega

theorem takeDigits_append (ds rest : List Char) (hds : ∀ c ∈ ds, isDigitCh c = true)
    (hrest : notDigitHead rest) : takeDigits (ds ++ rest) = (ds, rest) := by
  induction ds with
  | nil =>
    cases rest with
    | nil => rfl
    | cons c cs =>
      simp only [notDigitHead] at hrest
      simp [takeDigits, hrest]
  | cons d ds ih =>
    have hd : isDigitCh d = true := hds d (List.mem_cons_self d ds)
    simp [takeDigits, hd, ih (fun c hc => hds c (List.mem_cons_of_mem d hc))]

theorem parseNat_natChars (n : Nat) (rest : List Char) (h : notDigitHead rest) :
    parseNat (natChars n ++ rest) = some (n, rest) := by
  unfold parseNat natChars
  rw [takeDigits_append _ _ (natCharsAux_digits (n + 1) n (by omega)) h]
  simp only [natCharsAux_ne_nil (n + 1) n (by omega), if_neg, if_false]
  rw [digitsVal_natCharsAux (n + 1) n (by omega) 0]
  simp

theorem parseStrBody_escape (cs rest : List Char) :
    parseStrBody (escapeChars cs ++ '"' :: rest) = some (cs, rest) := by
  induction cs with
  | nil =>
    simp only [escapeChars, List.nil_append]
    rw [parseStrBody.eq_def]
    simp
  | cons c cs ih =>
    by_cases h : c = '"' ∨ c = '\\'
    · have he : escapeChar c = ['\\', c] := by
        rcases h with h | h <;> simp [escapeChar, h]
      simp only [escapeChars, he, List.cons_append, List.append_assoc]
      rw [parseStrBody.eq_def]
      simp [ih]
    · push_neg at h
      have he : escapeChar c = [c] := by simp [escapeChar, h.1, h.2]
      simp only [escapeChars, he, List.cons_append, List.append_assoc]
      rw [parseStrBody.eq_def]
      simp [h.1, h.2, ih]

theorem isDigitCh_ne (c : Char) (h : isDigitCh c = true) :
    c ≠ 'n' ∧ c ≠ 't' ∧ c ≠ 'f' ∧ c ≠ '"' ∧ c ≠ '-' ∧ c ≠ '[' ∧ c ≠ '\x7b' ∧ c ≠ ']' := by
  refine ⟨?_, ?_, ?_, ?_, ?_, ?_, ?_, ?_⟩ <;> (rintro rfl; revert h; decide)

theorem sizeJ_pos (j : Json) : 1 ≤ sizeJ j := by
  cases j <;> simp [sizeJ]

theorem notDigitHead_items (tl : JsonList) (r : List Char) :
    notDigitHead (encodeItems tl ++ ']' :: r) := by
  cases tl with
  | nil => simp [encodeItems, notDigitHead]; decide
  | cons x tl => simp [encodeItems, notDigitHead]; decide

theorem notDigitHead_fields (tl : JsonObj) (r : List Char) :
    notDigitHead (encodeFields tl ++ '\x7d' :: r) := by
  cases tl with
  | nil => simp [encodeFields, notDigitHead]; decide
  | cons k v tl => simp [encodeFields, notDigitHead]; decide

/-- Every encoding is non-empty and starts with a character other than a
closing bracket. -/
theorem encodeJson_head (j : Json) :
    ∃ c cs, encodeJson j = c :: cs ∧ c ≠ ']' := by
  cases j with
  | null => exact ⟨'n', _, rfl, by decide⟩
  | bool b =>
    cases b
    · exact ⟨'f', _, rfl, by decide⟩
    · exact ⟨'t', _, rfl, by decide⟩
  | num n =>
    rcases n with m | m
    · have he : encodeJson (Json.num (Int.ofNat m)) = natChars m := by
        simp [encodeJson, intChars]
      obtain ⟨c, cs, hc⟩ := List.exists_cons_of_ne_nil
        (show natChars m ≠ [] from natCharsAux_ne_nil (m + 1) m (by omega))
      refine ⟨c, cs, by rw [he, hc], ?_⟩
      have hd : isDigitCh c = true :=
        natCharsAux_digits (m + 1) m (by omega) c (by rw [show natCharsAux (m+1) m = natChars m from rfl, hc]; exact List.mem_cons_self c cs)
      exact (isDigitCh_ne c hd).2.2.2.2.2.2.2
    · have he : encodeJson (Json.num (Int.negSucc m)) = '-' :: natChars (m + 1) := by
        simp [encodeJson, intChars]
      exact ⟨'-', _, he, by decide⟩
  | str s => exact ⟨'"', _, rfl, by decide⟩
  | arr items =>
    cases items
    · exact ⟨'[', _, rfl, by decide⟩
    · exact ⟨'[', _, rfl, by decide⟩
  | obj fields =>
    cases fields
    · exact ⟨'\x7b', _, rfl, by decide⟩
    · exact ⟨'\x7b', _, rfl, by decide⟩

theorem parseVal_bracket (f : Nat) (c2 : Char) (rest2 : List Char) (hne : c2 ≠ ']') :
    parseVal (f + 1) ('[' :: c2 :: rest2) =
      (parseItems f (c2 :: rest2)).map (fun p => (.arr p.1, p.2)) := by
  rw [parseVal.eq_def]
  simp [hne]

theorem parse_encode_aux : ∀ N : Nat,
    (∀ j fuel rest, sizeJ j ≤ N → sizeJ j ≤ fuel → notDigitHead rest →
      parseVal fuel (encodeJson j ++ rest) = some (j, rest)) ∧
    (∀ x tl fuel rest, sizeL (.cons x tl) ≤ N → sizeL (.cons x tl) ≤ fuel →
      parseItems fuel (encodeJson x ++ (encodeItems tl ++ (']' :: rest))) =
        some (.cons x tl, rest)) ∧
    (∀ k v tl fuel rest, sizeF (.cons k v tl) ≤ N → sizeF (.cons k v tl) ≤ fuel →
      parseFields fuel
        ('"' :: (escapeChars k.data ++ ('"' :: (':' :: (encodeJson v ++
          (encodeFields tl ++ ('\x7d' :: rest))))))) = some (.cons k v tl, rest)) := by
  intro N
  induction N with
  | zero =>
    refine ⟨?_, ?_, ?_⟩
    · intro j fuel rest hN _ _
      have := sizeJ_pos j
      omega
    · intro x tl fuel rest hN _
      simp [sizeL] at hN
    · intro k v tl fuel rest hN _
      simp [sizeF] at hN
  | succ N ih =>
    obtain ⟨ihJ, ihL, ihF⟩ := ih
    refine ⟨?_, ?_, ?_⟩
    · intro j fuel rest hN hfuel hrest
      obtain ⟨f, rfl⟩ : ∃ f, fuel = f + 1 :=
        ⟨fuel - 1, by have := sizeJ_pos j; omega⟩
      cases j with
      | null =>
        rw [show encodeJson Json.null ++ rest = 'n' :: ('u' :: 'l' :: 'l' :: rest) from rfl]
        rw [parseVal.eq_def]
        simp [stripLead]
      | bool b =>
        cases b
        · rw [show encodeJson (Json.bool false) ++ rest =
              'f' :: ('a' :: 'l' :: 's' :: 'e' :: rest) from rfl]
          rw [parseVal.eq_def]
          simp [stripLead]
        · rw [show encodeJson (Json.bool true) ++ rest =
              't' :: ('r' :: 'u' :: 'e' :: rest) from rfl]
          rw [parseVal.eq_def]
          simp [stripLead]
      | num n =>
        rcases n with m | m
        · have he : encodeJson (Json.num (Int.ofNat m)) = natChars m := by
            simp [encodeJson, intChars]
          obtain ⟨c, cs, hc⟩ := List.exists_cons_of_ne_nil
            (show natChars m ≠ [] from natCharsAux_ne_nil (m + 1) m (by omega))
          have hd : isDigitCh c = true :=
            natCharsAux_digits (m + 1) m (by omega) c
              (by rw [show natCharsAux (m + 1) m = natChars m from rfl, hc]
                  exact List.mem_cons_self c cs)
          obtain ⟨h1, h2, h3, h4, h5, h6, h7, _⟩ := isDigitCh_ne c hd
          rw [he, hc, List.cons_append, parseVal.eq_def]
          simp only [if_neg h1, if_neg h2, if_neg h3, if_neg h4, if_neg h5, if_neg h6,
            if_neg h7, if_pos hd]
          rw [show c :: (cs ++ rest) = natChars m ++ rest from by rw [hc, List.cons_append]]
          rw [parseNat_natChars m rest hrest]
          simp
        · have he : encodeJson (Json.num (Int.negSucc m)) = '-' :: natChars (m + 1) := by
            simp [encodeJson, intChars]
          rw [he, List.cons_append, parseVal.eq_def]
          simp only [reduceIte]
          rw [parseNat_natChars (m + 1) rest hrest]
          simp [Int.negSucc_eq]
      | str s =>
        rw [show encodeJson (Json.str s) ++ rest =
            '"' :: (escapeChars s.data ++ ('"' :: rest)) from by simp [encodeJson]]
        rw [parseVal.eq_def]
        simp [parseStrBody_escape]
      | arr items =>
        cases items with
        | nil =>
          rw [show encodeJson (Json.arr .nil) ++ rest = '[' :: (']' :: rest) from rfl]
          rw [parseVal.eq_def]
          simp
        | cons x tl =>
          obtain ⟨c2, cs2, hc2, hne⟩ := encodeJson_head x
          have hN' : sizeL (.cons x tl) ≤ N := by
            simp only [sizeJ] at hN
            omega
          have hf' : sizeL (.cons x tl) ≤ f := by
            simp only [sizeJ] at hfuel
            omega
          have hrec := ihL x tl f rest hN' hf'
          rw [show encodeJson (Json.arr (.cons x tl)) ++ rest =
              '[' :: (encodeJson x ++ (encodeItems tl ++ (']' :: rest))) from by
            simp [encodeJson]]
          rw [hc2, List.cons_append, parseVal_bracket f c2 _ hne]
          rw [← List.cons_append, ← hc2, hrec]
          rfl
      | obj fields =>
        cases fields with
        | nil =>
          rw [show encodeJson (Json.obj .nil) ++ rest = '\x7b' :: ('\x7d' :: rest) from rfl]
          rw [parseVal.eq_def]
          simp
        | cons k v tl =>
          have hN' : sizeF (.cons k v tl) ≤ N := by
            simp only [sizeJ] at hN
            omega
          have hf' : sizeF (.cons k v tl) ≤ f := by
            simp only [sizeJ] at hfuel
            omega
          have hrec := ihF k v tl f rest hN' hf'
          rw [show encodeJson (Json.obj (.cons k v tl)) ++ rest =
              '\x7b' :: ('"' :: (escapeChars k.data ++ ('"' :: (':' :: (encodeJson v ++
                (encodeFields tl ++ ('\x7d' :: rest))))))) from by
            simp [encodeJson]]
          rw [parseVal.eq_def]
          simp only [reduceIte, List.head?, List.tail]
          rw [hrec]
          rfl
    · intro x tl fuel rest hN hf
      obtain ⟨f, rfl⟩ : ∃ g, fuel = g + 1 :=
        ⟨fuel - 1, by have := sizeJ_pos x; simp only [sizeL] at hf; omega⟩
      have hJN : sizeJ x ≤ N := by
        simp only [sizeL] at hN
        omega
      have hJf : sizeJ x ≤ f := by
        simp only [sizeL] at hf
        omega
      simp only [parseItems]
      rw [ihJ x f (encodeItems tl ++ (']' :: rest)) hJN hJf (notDigitHead_items tl rest)]
      cases tl with
      | nil => simp [encodeItems]
      | cons x2 tl2 =>
        have hN2 : sizeL (.cons x2 tl2) ≤ N := by
          simp only [sizeL] at hN ⊢
          have := sizeJ_pos x
          omega
        have hf2 : sizeL (.cons x2 tl2) ≤ f := by
          simp only [sizeL] at hf ⊢
          have := sizeJ_pos x
          omega
        have hrec := ihL x2 tl2 f rest hN2 hf2
        simp only [encodeItems, List.cons_append, List.append_assoc, Option.some_bind,
          List.head?, List.tail]
        simp only [reduceIte]
        rw [hrec]
        rfl
    · intro k v tl fuel rest hN hf
      obtain ⟨f, rfl⟩ : ∃ g, fuel = g + 1 :=
        ⟨fuel - 1, by have := sizeJ_pos v; simp only [sizeF] at hf; omega⟩
      have hJN : sizeJ v ≤ N := by
        simp only [sizeF] at hN
        omega
      have hJf : sizeJ v ≤ f := by
        simp only [sizeF] at hf
        omega
      simp only [parseFields, List.head?, List.tail, reduceIte]
      rw [parseStrBody_escape k.data
        (':' :: (encodeJson v ++ (encodeFields tl ++ ('\x7d' :: rest))))]
      simp only [Option.some_bind, List.head?, List.tail, reduceIte]
      rw [ihJ v f (encodeFields tl ++ ('\x7d' :: rest)) hJN hJf (notDigitHead_fields tl rest)]
      cases tl with
      | nil => simp [encodeFields]
      | cons k2 v2 tl2 =>
        have hN2 : sizeF (.cons k2 v2 tl2) ≤ N := by
          simp only [sizeF] at hN ⊢
          have := sizeJ_pos v
          omega
        have hf2 : sizeF (.cons k2 v2 tl2) ≤ f := by
          simp only [sizeF] at hf ⊢
          have := sizeJ_pos v
          omega
        have hrec := ihF k2 v2 tl2 f rest hN2 hf2
        simp only [encodeFields, List.cons_append, List.append_assoc, Option.some_bind,
          List.head?, List.tail]
        simp only [reduceIte]
        rw [hrec]
        rfl

theorem size_le_length_aux : ∀ N : Nat,
    (∀ j, sizeJ j ≤ N → sizeJ j ≤ (encodeJson j).length) ∧
    (∀ xs, sizeL xs ≤ N → sizeL xs ≤ (encodeItems xs).length) ∧
    (∀ fs, sizeF fs ≤ N → sizeF fs ≤ (encodeFields fs).length) := by
  intro N
  induction N with
  | zero =>
    refine ⟨?_, ?_, ?_⟩
    · intro j hN
      have := sizeJ_pos j
      omega
    · intro xs hN
      cases xs with
      | nil => simp [sizeL]
      | cons x tl => have := sizeJ_pos x; simp only [sizeL] at hN; omega
    · intro fs hN
      cases fs with
      | nil => simp [sizeF]
      | cons k v tl => have := sizeJ_pos v; simp only [sizeF] at hN; omega
  | succ N ih =>
    obtain ⟨ihJ, ihL, ihF⟩ := ih
    refine ⟨?_, ?_, ?_⟩
    · intro j hN
      cases j with
      | null => simp [sizeJ, encodeJson, nullChars]
      | bool b => cases b <;> simp [sizeJ, encodeJson, trueChars, falseChars]
      | num n =>
        have hpos : 1 ≤ (encodeJson (Json.num n)).length := by
          rcases n with m | m
          · rw [show encodeJson (Json.num (Int.ofNat m)) = natChars m from by
              simp [encodeJson, intChars]]
            have := natCharsAux_ne_nil (m + 1) m (by omega)
            cases h : natChars m with
            | nil => exact absurd h this
            | cons c cs => simp [h]
          · rw [show encodeJson (Json.num (Int.negSucc m)) = '-' :: natChars (m + 1) from by
              simp [encodeJson, intChars]]
            simp
        simpa [sizeJ] using hpos
      | str s => simp [sizeJ, encodeJson]
      | arr items =>
        cases items with
        | nil => simp [sizeJ, sizeL, encodeJson]
        | cons x tl =>
          have h1 : sizeJ x ≤ (encodeJson x).length :=
            ihJ x (by simp only [sizeJ, sizeL] at hN ⊢; omega)
          have h2 : sizeL tl ≤ (encodeItems tl).length :=
            ihL tl (by simp only [sizeJ, sizeL] at hN ⊢; have := sizeJ_pos x; omega)
          simp only [sizeJ, sizeL, encodeJson, List.length_cons, List.length_append,
            List.length_nil]
          omega
      | obj fields =>
        cases fields with
        | nil => simp [sizeJ, sizeF, encodeJson]
        | cons k v tl =>
          have h1 : sizeJ v ≤ (encodeJson v).length :=
            ihJ v (by simp only [sizeJ, sizeF] at hN ⊢; omega)
          have h2 : sizeF tl ≤ (encodeFields tl).length :=
            ihF tl (by simp only [sizeJ, sizeF] at hN ⊢; have := sizeJ_pos v; omega)
          simp only [sizeJ, sizeF, encodeJson, List.length_cons, List.length_append,
            List.length_nil]
          omega
    · intro xs hN
      cases xs with
      | nil => simp [sizeL]
      | cons x tl =>
        have h1 : sizeJ x ≤ (encodeJson x).length :=
          ihJ x (by simp only [sizeL] at hN ⊢; omega)
        have h2 : sizeL tl ≤ (encodeItems tl).length :=
          ihL tl (by simp only [sizeL] at hN ⊢; have := sizeJ_pos x; omega)
        simp only [sizeL, encodeItems, List.length_cons, List.length_append]
        omega
    · intro fs hN
      cases fs with
      | nil => simp [sizeF]
      | cons k v tl =>
        have h1 : sizeJ v ≤ (encodeJson v).length :=
          ihJ v (by simp only [sizeF] at hN ⊢; omega)
        have h2 : sizeF tl ≤ (encodeFields tl).length :=
          ihF tl (by simp only [sizeF] at hN ⊢; have := sizeJ_pos v; omega)
        simp only [sizeF, encodeFields, List.length_cons, List.length_append,
          List.length_nil]
        omega

theorem sizeJ_le_length (j : Json) : sizeJ j ≤ (encodeJson j).length :=
  (size_le_length_aux (sizeJ j)).1 j le_rfl

theorem parseVal_encode (j : Json) (fuel : Nat) (rest : List Char)
    (hfuel : sizeJ j ≤ fuel) (hrest : notDigitHead rest) :
    parseVal fuel (encodeJson j ++ rest) = some (j, rest) :=
  (parse_encode_aux (sizeJ j)).1 j fuel rest le_rfl hfuel hrest

/-- Round trip of the codec: JSON.parse inverts JSON.stringify. -/
theorem parseJsonText_encodeJson (j : Json) : parseJsonText (encodeJson j) = some j := by
  unfold parseJsonText
  have h := parseVal_encode j ((encodeJson j).length + 1) []
    (by have := sizeJ_le_length j; omega) (by simp [notDigitHead])
  rw [List.append_nil] at h
  rw [h]
  simp

/-! ## Ordering and sorting lemmas -/

theorem keyGE_total (d1 : Bool) (u1 c1 : Nat) (d2 : Bool) (u2 c2 : Nat) :
    keyGE d1 u1 c1 d2 u2 c2 = true ∨ keyGE d2 u2 c2 d1 u1 c1 = true := by
  simp only [keyGE, decide_eq_true_eq]
  omega

theorem keyGE_trans (d1 : Bool) (u1 c1 : Nat) (d2 : Bool) (u2 c2 : Nat)
    (d3 : Bool) (u3 c3 : Nat) (h1 : keyGE d1 u1 c1 d2 u2 c2 = true)
    (h2 : keyGE d2 u2 c2 d3 u3 c3 = true) : keyGE d1 u1 c1 d3 u3 c3 = true := by
  simp only [keyGE, decide_eq_true_eq] at h1 h2 ⊢
  omega

theorem rowGE_total (a b : PresetRow) : rowGE a b = true ∨ rowGE b a = true :=
  keyGE_total a.isDefault a.usageCount a.createdAt b.isDefault b.usageCount b.createdAt

theorem rowGE_trans (a b c : PresetRow) (h1 : rowGE a b = true) (h2 : rowGE b c = true) :
    rowGE a c = true :=
  keyGE_trans a.isDefault a.usageCount a.createdAt b.isDefault b.usageCount b.createdAt
    c.isDefault c.usageCount c.createdAt h1 h2

theorem mem_insertSorted {α : Type} (le : α → α → Bool) (x y : α) (l : List α) :
    y ∈ insertSorted le x l ↔ y = x ∨ y ∈ l := by
  induction l with
  | nil => simp [insertSorted]
  | cons z zs ih =>
    simp only [insertSorted]
    split_ifs
    · simp only [List.mem_cons]
    · simp only [List.mem_cons, ih]
      tauto

theorem pairwise_insertSorted {α : Type} (le : α → α → Bool)
    (htrans : ∀ a b c, le a b = true → le b c = true → le a c = true)
    (htot : ∀ a b, le a b = true ∨ le b a = true)
    (x : α) (l : List α) (h : l.Pairwise (fun a b => le a b = true)) :
    (insertSorted le x l).Pairwise (fun a b => le a b = true) := by
  induction l with
  | nil => simp [insertSorted]
  | cons y ys ih =>
    rcases List.pairwise_cons.mp h with ⟨hy, hys⟩
    simp only [insertSorted]
    split_ifs with hxy
    · refine List.pairwise_cons.mpr ⟨?_, h⟩
      intro z hz
      rcases List.mem_cons.mp hz with rfl | hz
      · exact hxy
      · exact htrans x y z hxy (hy z hz)
    · have hyx : le y x = true := by
        rcases htot x y with h' | h'
        · exact absurd h' hxy
        · exact h'
      refine List.pairwise_cons.mpr ⟨?_, ih hys⟩
      intro z hz
      rcases (mem_insertSorted le x z ys).mp hz with rfl | hz
      · exact hyx
      · exact hy z hz

theorem pairwise_insertionSort {α : Type} (le : α → α → Bool)
    (htrans : ∀ a b c, le a b = true → le b c = true → le a c = true)
    (htot : ∀ a b, le a b = true ∨ le b a = true) (l : List α) :
    (insertionSort le l).Pairwise (fun a b => le a b = true) := by
  induction l with
  | nil => simp [insertionSort]
  | cons x xs ih => exact pairwise_insertSorted le htrans htot x _ ih

theorem mem_insertionSort {α : Type} (le : α → α → Bool) (y : α) (l : List α) :
    y ∈ insertionSort le l ↔ y ∈ l := by
  induction l with
  | nil => simp [insertionSort]
  | cons x xs ih =>
    simp only [insertionSort, mem_insertSorted, List.mem_cons, ih]

/-! ## Lemmas about the response shaping -/

theorem rowToView_of_readConfig (db : Store) (p : PresetRow) (cfg : Json)
    (h : readConfig p.filterConfig = some cfg) :
    rowToView db p =
      some { id := p.id, name := p.name, description := p.description,
             entityType := p.entityType, filterConfig := cfg,
             filterLogic := p.filterLogic, isPublic := p.isPublic,
             isDefault := p.isDefault, icon := p.icon, color := p.color,
             usageCount := p.usageCount, lastUsedAt := p.lastUsedAt,
             createdAt := p.createdAt, updatedAt := p.updatedAt,
             creator := findCreator db p.createdBy } := by
  unfold rowToView
  rw [h]

theorem rowToView_fields (db : Store) (p : PresetRow) (v : PresetView)
    (h : rowToView db p = some v) :
    v.isDefault = p.isDefault ∧ v.usageCount = p.usageCount ∧ v.createdAt = p.createdAt ∧
      v.id = p.id ∧ readConfig p.filterConfig = some v.filterConfig := by
  unfold rowToView at h
  cases hc : readConfig p.filterConfig with
  | none => rw [hc] at h; simp at h
  | some cfg =>
    rw [hc] at h
    simp only [Option.some.injEq] at h
    subst h
    simp

theorem viewRows_forall2 (db : Store) (l : List PresetRow) (vs : List PresetView)
    (h : viewRows db l = some vs) :
    List.Forall₂ (fun p v => rowToView db p = some v) l vs := by
  induction l generalizing vs with
  | nil =>
    simp only [viewRows, Option.some.injEq] at h
    subst h
    exact List.Forall₂.nil
  | cons p ps ih =>
    simp only [viewRows] at h
    cases hv : rowToView db p with
    | none => rw [hv] at h; simp at h
    | some v =>
      rw [hv] at h
      cases hvs : viewRows db ps with
      | none => rw [hvs] at h; simp at h
      | some ws =>
        rw [hvs] at h
        simp only [Option.some.injEq] at h
        subst h
        exact List.Forall₂.cons hv (ih ws hvs)

theorem viewRows_isSome (db : Store) (l : List PresetRow)
    (h : ∀ p ∈ l, (rowToView db p).isSome = true) :
    ∃ vs, viewRows db l = some vs := by
  induction l with
  | nil => exact ⟨[], rfl⟩
  | cons p ps ih =>
    obtain ⟨vs, hvs⟩ := ih (fun q hq => h q (List.mem_cons_of_mem p hq))
    obtain ⟨v, hv⟩ := Option.isSome_iff_exists.mp (h p (List.mem_cons_self p ps))
    refine ⟨v :: vs, ?_⟩
    simp [viewRows, hv, hvs]

theorem mem_of_forall2_right {α β : Type} (f : α → β → Prop) (l : List α) (m : List β)
    (h : List.Forall₂ f l m) (b : β) (hb : b ∈ m) : ∃ a ∈ l, f a b := by
  induction h with
  | nil => simp at hb
  | cons hab htl ih =>
    rcases List.mem_cons.mp hb with rfl | hb
    · exact ⟨_, List.mem_cons_self _ _, hab⟩
    · obtain ⟨a, ha, haf⟩ := ih hb
      exact ⟨a, List.mem_cons_of_mem _ ha, haf⟩

theorem mem_of_forall2_left {α β : Type} (f : α → β → Prop) (l : List α) (m : List β)
    (h : List.Forall₂ f l m) (a : α) (ha : a ∈ l) : ∃ b ∈ m, f a b := by
  induction h with
  | nil => simp at ha
  | cons hab htl ih =>
    rcases List.mem_cons.mp ha with rfl | ha
    · exact ⟨_, List.mem_cons_self _ _, hab⟩
    · obtain ⟨b, hb, hbf⟩ := ih ha
      exact ⟨b, List.mem_cons_of_mem _ hb, hbf⟩

theorem pairwise_of_forall2 {α β : Type} (R : α → α → Prop) (S : β → β → Prop)
    (f : α → β → Prop) (l : List α) (m : List β)
    (hcompat : ∀ a b a2 b2, f a b → f a2 b2 → R a a2 → S b b2)
    (hf : List.Forall₂ f l m) (hp : l.Pairwise R) : m.Pairwise S := by
  induction hf with
  | nil => exact List.Pairwise.nil
  | cons hab htl ih =>
    rcases List.pairwise_cons.mp hp with ⟨hhead, htail⟩
    refine List.pairwise_cons.mpr ⟨?_, ih htail⟩
    intro b2 hb2
    obtain ⟨a2, ha2, ha2f⟩ := mem_of_forall2_right _ _ _ htl b2 hb2
    exact hcompat _ _ _ _ hab ha2f (hhead a2 ha2)

/-! ## Characterizing the create handler -/

/-- Forward run of the success path of the create handler. -/
theorem handlePOST_success (db : Store) (ctx : TenantCtx) (b : CreateBody) (cfg : Json)
    (logic : String) (hv : ctxValid ctx = true) (hc : b.filterConfig = some cfg)
    (hok : bodyNameOk b = true) (htr : jsTruthy cfg = true)
    (hex : findExisting db (ctxTenantId ctx) (b.name.getD "") (ctxUserId ctx) = none)
    (hlog : deriveFilterLogic cfg = some logic) :
    handlePOST db ctx b =
      (.created { row := mkRow db (ctxTenantId ctx) (ctxUserId ctx) b cfg logic,
                  filterConfig := cfg,
                  creator := findCreator
                    { db with
                        presets := db.presets ++
                          [mkRow db (ctxTenantId ctx) (ctxUserId ctx) b cfg logic],
                        nextId := db.nextId + 1 } (ctxUserId ctx) },
       { db with
           presets := db.presets ++ [mkRow db (ctxTenantId ctx) (ctxUserId ctx) b cfg logic],
           nextId := db.nextId + 1 },
       [.read, .write]) := by
  have hread : readConfig (mkRow db (ctxTenantId ctx) (ctxUserId ctx) b cfg logic).filterConfig =
      some cfg := by
    simp [mkRow, readConfig, parseJsonText_encodeJson]
  simp [handlePOST, hv, hc, hok, htr, hex, hlog, hread]
  simp [mkRow]

/-- Inversion of the create handler on a created response. -/
theorem handlePOST_created_inv (db : Store) (ctx : TenantCtx) (b : CreateBody)
    (v : CreatedView) (db2 : Store) (ops : List StorageOp)
    (h : handlePOST db ctx b = (.created v, db2, ops)) :
    ∃ cfg logic, b.filterConfig = some cfg ∧ deriveFilterLogic cfg = some logic ∧
      ctxValid ctx = true ∧ bodyNameOk b = true ∧ jsTruthy cfg = true ∧
      findExisting db (ctxTenantId ctx) (b.name.getD "") (ctxUserId ctx) = none ∧
      v.row = mkRow db (ctxTenantId ctx) (ctxUserId ctx) b cfg logic ∧
      v.filterConfig = cfg ∧
      db2 = { db with presets := db.presets ++ [v.row], nextId := db.nextId + 1 } ∧
      ops = [.read, .write] := by
  unfold handlePOST at h
  by_cases hv : ctxValid ctx = true
  swap
  · rw [if_neg hv] at h
    simp at h
  rw [if_pos hv] at h
  cases hcfg : b.filterConfig with
  | none => rw [hcfg] at h; simp at h
  | some cfg =>
    simp only [hcfg] at h
    by_cases hok : (bodyNameOk b && jsTruthy cfg) = true
    swap
    · rw [if_neg hok] at h
      simp at h
    rw [if_pos hok] at h
    cases hex : findExisting db (ctxTenantId ctx) (b.name.getD "") (ctxUserId ctx) with
    | some p0 => simp only [hex] at h; simp at h
    | none =>
      simp only [hex] at h
      cases hlog : deriveFilterLogic cfg with
      | none => simp only [hlog] at h; simp at h
      | some logic =>
        simp only [hlog] at h
        have hread : readConfig
            (mkRow db (ctxTenantId ctx) (ctxUserId ctx) b cfg logic).filterConfig =
            some cfg := by
          simp [mkRow, readConfig, parseJsonText_encodeJson]
        simp only [hread] at h
        simp only [Prod.mk.injEq, ApiResponse.created.injEq] at h
        obtain ⟨hvv, hdb2, hops⟩ := h
        rcases (Bool.and_eq_true _ _).mp hok with ⟨hname, htr⟩
        refine ⟨cfg, logic, rfl, hlog, hv, hname, htr, rfl, ?_, ?_, ?_, hops.symm⟩
        · rw [← hvv]
        · rw [← hvv]
        · rw [← hdb2, ← hvv]

/-! ## The claims -/

/-- C9: for every list request, `entityType` defaults to "users" when
unspecified, the `isPublic` filter is true exactly when the parameter is
the string "true", and `includeShared` is enabled for any value or
absence except the exact string "false". -/
theorem claim9_query_decoding (q : ListQuery) :
    (q.entityType = none → queryEntityType q = "users") ∧
    (queryIsPublic q = true ↔ q.isPublic = some "true") ∧
    (queryIncludeShared q = true ↔ q.includeShared ≠ some "false") := by
  refine ⟨?_, ?_, ?_⟩
  · intro h
    simp [queryEntityType, h]
  · simp [queryIsPublic]
  · simp [queryIncludeShared]

theorem claim9_query_decoding_witness :
    queryEntityType ⟨none, none, none⟩ = "users" ∧
    (queryIsPublic ⟨none, some "true", none⟩ = true ↔ (some "true" : Option String) = some "true") :=
  ⟨(claim9_query_decoding ⟨none, none, none⟩).1 rfl,
   (claim9_query_decoding ⟨none, some "true", none⟩).2.1⟩

/-- C4: a request whose context lacks a truthy userId or tenantId is
answered with unauthorized by both handlers, with no storage operation
and an unchanged store. -/
theorem claim4_unauthorized (db : Store) (ctx : TenantCtx) (q : ListQuery) (b : CreateBody)
    (h : ¬(strTruthy ctx.userId = true ∧ strTruthy ctx.tenantId = true)) :
    handleGET db ctx q = (.unauthorized, []) ∧
    handlePOST db ctx b = (.unauthorized, db, []) := by
  have hv : ctxValid ctx = false := by
    cases hu : strTruthy ctx.userId <;> cases ht : strTruthy ctx.tenantId <;>
      simp_all [ctxValid]
  constructor
  · simp [handleGET, hv]
  · simp [handlePOST, hv]

theorem claim4_unauthorized_witness :
    handleGET ⟨[], [], 0, 0⟩ ⟨none, some "t"⟩ ⟨none, none, none⟩ = (.unauthorized, []) ∧
    handlePOST ⟨[], [], 0, 0⟩ ⟨none, some "t"⟩ ⟨none, none, none, none, none, none, none⟩ =
      (.unauthorized, ⟨[], [], 0, 0⟩, []) :=
  claim4_unauthorized ⟨[], [], 0, 0⟩ ⟨none, some "t"⟩ ⟨none, none, none⟩
    ⟨none, none, none, none, none, none, none⟩ (by simp [strTruthy])

/-- C2: every row matched by the list query carries the tenant id of the
caller and the requested entity type; there is no cross-tenant
visibility. -/
theorem claim2_tenant_scoping (db : Store) (ctx : TenantCtx) (q : ListQuery) (p : PresetRow)
    (t : String) (ht : ctx.tenantId = some t) (hp : p ∈ getMatchedRows db ctx q) :
    p.tenantId = t ∧ p.entityType = queryEntityType q := by
  rcases List.mem_filter.mp hp with ⟨_, hm⟩
  simp only [matchesWhere, Bool.and_eq_true, beq_iff_eq] at hm
  refine ⟨?_, hm.1.2⟩
  rw [hm.1.1]
  simp [ctxTenantId, ht]

theorem claim2_tenant_scoping_witness :
    ({ id := 1, tenantId := "t", name := "X", description := none,
       entityType := "users", filterConfig := .structured Json.null,
       filterLogic := "AND", isPublic := true, isDefault := false,
       icon := none, color := none, usageCount := 0, lastUsedAt := none,
       createdAt := 0, updatedAt := 0, createdBy := "u" } : PresetRow).tenantId = "t" ∧
    ({ id := 1, tenantId := "t", name := "X", description := none,
       entityType := "users", filterConfig := .structured Json.null,
       filterLogic := "AND", isPublic := true, isDefault := false,
       icon := none, color := none, usageCount := 0, lastUsedAt := none,
       createdAt := 0, updatedAt := 0, createdBy := "u" } : PresetRow).entityType =
      queryEntityType ⟨none, none, none⟩ :=
  claim2_tenant_scoping
    ⟨[{ id := 1, tenantId := "t", name := "X", description := none,
        entityType := "users", filterConfig := .structured Json.null,
        filterLogic := "AND", isPublic := true, isDefault := false,
        icon := none, color := none, usageCount := 0, lastUsedAt := none,
        createdAt := 0, updatedAt := 0, createdBy := "u" }], [], 2, 5⟩
    ⟨some "u", some "t"⟩ ⟨none, none, none⟩ _ "t" rfl (by decide)

/-- C1: with a valid identity, the visibility predicate follows the
exact precedence: isPublic filter first, then includeShared, then
ownership only. -/
theorem claim1_visibility_precedence (db : Store) (ctx : TenantCtx) (q : ListQuery)
    (p : PresetRow) (hu : strTruthy ctx.userId = true) (ht : strTruthy ctx.tenantId = true) :
    (queryIsPublic q = true →
      (p ∈ getMatchedRows db ctx q ↔
        p ∈ db.presets ∧ p.tenantId = ctxTenantId ctx ∧
          p.entityType = queryEntityType q ∧ p.isPublic = true)) ∧
    (queryIsPublic q = false → queryIncludeShared q = true →
      (p ∈ getMatchedRows db ctx q ↔
        p ∈ db.presets ∧ p.tenantId = ctxTenantId ctx ∧
          p.entityType = queryEntityType q ∧
          (p.isPublic = true ∨ p.createdBy = ctxUserId ctx))) ∧
    (queryIsPublic q = false → queryIncludeShared q = false →
      (p ∈ getMatchedRows db ctx q ↔
        p ∈ db.presets ∧ p.tenantId = ctxTenantId ctx ∧
          p.entityType = queryEntityType q ∧ p.createdBy = ctxUserId ctx)) := by
  refine ⟨?_, ?_, ?_⟩
  · intro h1
    simp [getMatchedRows, List.mem_filter, matchesWhere, h1, and_assoc]
  · intro h1 h2
    simp [getMatchedRows, List.mem_filter, matchesWhere, h1, h2, and_assoc]
  · intro h1 h2
    simp [getMatchedRows, List.mem_filter, matchesWhere, h1, h2, and_assoc]

theorem claim1_visibility_precedence_witness :
    strTruthy (some "u") = true ∧
    ((⟨[], [], 0, 0⟩ : Store).presets.filter
        (matchesWhere "t" "u" "users" true true) = []) ∧
    (queryIsPublic ⟨none, some "true", none⟩ = true →
      (({ id := 1, tenantId := "t", name := "X", description := none,
          entityType := "users", filterConfig := .structured Json.null,
          filterLogic := "AND", isPublic := true, isDefault := false,
          icon := none, color := none, usageCount := 0, lastUsedAt := none,
          createdAt := 0, updatedAt := 0, createdBy := "u" } : PresetRow) ∈
        getMatchedRows ⟨[], [], 0, 0⟩ ⟨some "u", some "t"⟩ ⟨none, some "true", none⟩ ↔
        ({ id := 1, tenantId := "t", name := "X", description := none,
           entityType := "users", filterConfig := .structured Json.null,
           filterLogic := "AND", isPublic := true, isDefault := false,
           icon := none, color := none, usageCount := 0, lastUsedAt := none,
           createdAt := 0, updatedAt := 0, createdBy := "u" } : PresetRow) ∈
          ([] : List PresetRow) ∧
          "t" = ctxTenantId ⟨some "u", some "t"⟩ ∧
          "users" = queryEntityType ⟨none, some "true", none⟩ ∧ true = true)) := by
  refine ⟨rfl, rfl, ?_⟩
  intro h1
  exact (claim1_visibility_precedence ⟨[], [], 0, 0⟩ ⟨some "u", some "t"⟩
    ⟨none, some "true", none⟩ _ rfl rfl).1 h1

/-- C7: with a valid identity, a create whose payload misses
filterConfig or has an empty or absent name is answered with a bad
request; the store is unchanged and no storage operation runs. -/
theorem claim7_bad_request (db : Store) (ctx : TenantCtx) (b : CreateBody)
    (hv : ctxValid ctx = true)
    (h : b.name = none ∨ b.name = some "" ∨ b.filterConfig = none) :
    handlePOST db ctx b =
      (.badRequest "Missing required fields: name, filterConfig", db, []) := by
  unfold handlePOST
  rw [if_pos hv]
  cases hc : b.filterConfig with
  | none => simp
  | some cfg =>
    have hn : bodyNameOk b = false := by
      rcases h with h | h | h
      · simp [bodyNameOk, strTruthy, h]
      · simp only [bodyNameOk, strTruthy, h]
        decide
      · rw [h] at hc
        cases hc
    simp [hn]

theorem claim7_bad_request_witness :
    handlePOST ⟨[], [], 0, 0⟩ ⟨some "u", some "t"⟩
        ⟨some "", none, none, some Json.null, none, none, none⟩ =
      (.badRequest "Missing required fields: name, filterConfig", ⟨[], [], 0, 0⟩, []) :=
  claim7_bad_request ⟨[], [], 0, 0⟩ ⟨some "u", some "t"⟩
    ⟨some "", none, none, some Json.null, none, none, none⟩ (by decide)
    (Or.inr (Or.inl rfl))

/-- C10: on every successful create the optional description, icon and
color are persisted as null whenever the submitted value is absent or
falsy; in particular an empty string is stored as null, and the stored
row is exactly the row echoed in the response. -/
theorem claim10_falsy_optionals (db : Store) (ctx : TenantCtx) (b : CreateBody)
    (v : CreatedView) (db2 : Store) (ops : List StorageOp)
    (h : handlePOST db ctx b = (.created v, db2, ops)) :
    db2.presets = db.presets ++ [v.row] ∧
    ((b.description = none ∨ b.description = some "") → v.row.description = none) ∧
    ((b.icon = none ∨ b.icon = some "") → v.row.icon = none) ∧
    ((b.color = none ∨ b.color = some "") → v.row.color = none) := by
  obtain ⟨cfg, logic, hcfg, hlog, hv, hname, htr, hex, hrow, hvc, hdb2, hops⟩ :=
    handlePOST_created_inv db ctx b v db2 ops h
  refine ⟨by rw [hdb2], ?_, ?_, ?_⟩ <;> intro hx <;> rw [hrow] <;>
    rcases hx with hx | hx <;> simp [mkRow, orNull, hx] <;> decide

theorem claim10_falsy_optionals_witness :
    ∃ v db2 ops,
      handlePOST ⟨[], [], 0, 0⟩ ⟨some "u", some "t"⟩
          ⟨some "X", some "", none, some (Json.obj .nil), none, some "", none⟩ =
        (.created v, db2, ops) ∧
      v.row.description = none ∧ v.row.icon = none ∧ v.row.color = none ∧
      db2.presets = [] ++ [v.row] := by
  have h := handlePOST_success ⟨[], [], 0, 0⟩ ⟨some "u", some "t"⟩
    ⟨some "X", some "", none, some (Json.obj .nil), none, some "", none⟩ (Json.obj .nil)
    "AND" (by decide) rfl (by decide) rfl rfl rfl
  have hm := claim10_falsy_optionals _ _ _ _ _ _ h
  exact ⟨_, _, _, h, hm.2.1 (Or.inr rfl), hm.2.2.1 (Or.inr rfl),
    hm.2.2.2 (Or.inl rfl), hm.1⟩

/-- C8 counterexample: a create whose filterConfig carries the field
logic with the empty-string value succeeds but stores "AND", not the
submitted (present) logic value, refuting the claim as stated. -/
theorem claim8_counterexample :
    ∃ v db2 ops,
      handlePOST ⟨[], [], 0, 0⟩ ⟨some "u", some "t"⟩
          ⟨some "X", none, none, some (Json.obj (.cons "logic" (Json.str "") .nil)), none,
            none, none⟩ = (.created v, db2, ops) ∧
      getField (Json.obj (.cons "logic" (Json.str "") .nil)) "logic" = some (Json.str "") ∧
      v.row.filterLogic = "AND" ∧ ("AND" : String) ≠ "" := by
  have h := handlePOST_success ⟨[], [], 0, 0⟩ ⟨some "u", some "t"⟩
    ⟨some "X", none, none, some (Json.obj (.cons "logic" (Json.str "") .nil)), none, none,
      none⟩ (Json.obj (.cons "logic" (Json.str "") .nil)) "AND" (by decide) rfl (by decide)
    rfl rfl (by decide)
  exact ⟨_, _, _, h, rfl, rfl, by decide⟩

/-- C8 amended: on every successful create the stored filterLogic equals
payload.filterConfig.logic when that field is present with a truthy
value (a non-empty string), and "AND" otherwise: when the field is
absent or falsy, in particular when it is the empty string. -/
theorem claim8_filter_logic (db : Store) (ctx : TenantCtx) (b : CreateBody) (cfg : Json)
    (v : CreatedView) (db2 : Store) (ops : List StorageOp)
    (hc : b.filterConfig = some cfg)
    (h : handlePOST db ctx b = (.created v, db2, ops)) :
    (∀ s, getField cfg "logic" = some (Json.str s) → s ≠ "" → v.row.filterLogic = s) ∧
    (getField cfg "logic" = none → v.row.filterLogic = "AND") ∧
    (∀ w, getField cfg "logic" = some w → jsTruthy w = false → v.row.filterLogic = "AND") := by
  obtain ⟨cfg2, logic, hcfg, hlog, hv, hname, htr, hex, hrow, hvc, hdb2, hops⟩ :=
    handlePOST_created_inv db ctx b v db2 ops h
  rw [hc] at hcfg
  injection hcfg with hcfg
  subst hcfg
  have hfl : v.row.filterLogic = logic := by rw [hrow]; simp [mkRow]
  refine ⟨?_, ?_, ?_⟩
  · intro s hs hse
    have hts : jsTruthy (Json.str s) = true := by
      cases he : s.isEmpty
      · simp [jsTruthy, he]
      · exact absurd ((String.isEmpty_iff s).mp he) hse
    unfold deriveFilterLogic at hlog
    simp only [hs] at hlog
    rw [if_pos hts] at hlog
    simp only [Option.some.injEq] at hlog
    rw [hfl, ← hlog]
  · intro hs
    unfold deriveFilterLogic at hlog
    simp only [hs] at hlog
    injection hlog with hlog
    rw [hfl, ← hlog]
  · intro w hw hwf
    unfold deriveFilterLogic at hlog
    simp only [hw] at hlog
    rw [if_neg (by simp [hwf])] at hlog
    injection hlog with hlog
    rw [hfl, ← hlog]

theorem claim8_filter_logic_witness :
    ∃ v db2 ops,
      handlePOST ⟨[], [], 0, 0⟩ ⟨some "u", some "t"⟩
          ⟨some "X", none, none, some (Json.obj .nil), none, none, none⟩ =
        (.created v, db2, ops) ∧ v.row.filterLogic = "AND" := by
  have h := handlePOST_success ⟨[], [], 0, 0⟩ ⟨some "u", some "t"⟩
    ⟨some "X", none, none, some (Json.obj .nil), none, none, none⟩ (Json.obj .nil) "AND"
    (by decide) rfl (by decide) rfl rfl rfl
  have hm := claim8_filter_logic _ _ _ (Json.obj .nil) _ _ _ rfl h
  exact ⟨_, _, _, h, hm.2.1 rfl⟩

/-- C3: a create whose (tenant, owner, name) already exists is answered
with a conflict and no insert; two creates with the same name by two
different users of the same tenant both succeed, so uniqueness is
scoped per owner, not per tenant. -/
theorem claim3_uniqueness_per_owner :
    (∀ db ctx b cfg p, ctxValid ctx = true → b.filterConfig = some cfg →
      bodyNameOk b = true → jsTruthy cfg = true → p ∈ db.presets →
      p.tenantId = ctxTenantId ctx → p.name = b.name.getD "" →
      p.createdBy = ctxUserId ctx →
      handlePOST db ctx b =
        (.conflict "Preset with this name already exists", db, [.read])) ∧
    (∀ db ctx1 ctx2 b1 b2 cfg1 cfg2 lg1 lg2,
      ctxValid ctx1 = true → ctxValid ctx2 = true →
      ctxTenantId ctx1 = ctxTenantId ctx2 → ctxUserId ctx1 ≠ ctxUserId ctx2 →
      b1.filterConfig = some cfg1 → bodyNameOk b1 = true → jsTruthy cfg1 = true →
      b2.filterConfig = some cfg2 → bodyNameOk b2 = true → jsTruthy cfg2 = true →
      b1.name.getD "" = b2.name.getD "" →
      deriveFilterLogic cfg1 = some lg1 → deriveFilterLogic cfg2 = some lg2 →
      findExisting db (ctxTenantId ctx1) (b1.name.getD "") (ctxUserId ctx1) = none →
      findExisting db (ctxTenantId ctx2) (b2.name.getD "") (ctxUserId ctx2) = none →
      ∃ v1 db1 v2 db2,
        handlePOST db ctx1 b1 = (.created v1, db1, [.read, .write]) ∧
        handlePOST db1 ctx2 b2 = (.created v2, db2, [.read, .write])) := by
  constructor
  · intro db ctx b cfg p hv hc hok htr hp ht hn hu
    have hex : (findExisting db (ctxTenantId ctx) (b.name.getD "") (ctxUserId ctx)).isSome =
        true := by
      apply List.find?_isSome.mpr
      refine ⟨p, hp, ?_⟩
      simp [ht, hn, hu]
    obtain ⟨p0, hp0⟩ := Option.isSome_iff_exists.mp hex
    simp [handlePOST, hv, hc, hok, htr, hp0]
  · intro db ctx1 ctx2 b1 b2 cfg1 cfg2 lg1 lg2 hv1 hv2 htq hne hc1 hok1 htr1 hc2 hok2 htr2
      hnm hl1 hl2 hex1 hex2
    have h1 := handlePOST_success db ctx1 b1 cfg1 lg1 hv1 hc1 hok1 htr1 hex1 hl1
    have hex2' : findExisting
        { db with
            presets := db.presets ++ [mkRow db (ctxTenantId ctx1) (ctxUserId ctx1) b1 cfg1 lg1],
            nextId := db.nextId + 1 }
        (ctxTenantId ctx2) (b2.name.getD "") (ctxUserId ctx2) = none := by
      unfold findExisting at hex2 ⊢
      rw [List.find?_append, hex2]
      simp only [Option.none_or]
      have hpred : ((mkRow db (ctxTenantId ctx1) (ctxUserId ctx1) b1 cfg1 lg1).tenantId ==
          ctxTenantId ctx2 &&
          (mkRow db (ctxTenantId ctx1) (ctxUserId ctx1) b1 cfg1 lg1).name ==
            b2.name.getD "" &&
          (mkRow db (ctxTenantId ctx1) (ctxUserId ctx1) b1 cfg1 lg1).createdBy ==
            ctxUserId ctx2) = false := by
        simp [mkRow, hne]
      simp [List.find?, hpred]
    have h2 := handlePOST_success
      { db with
          presets := db.presets ++ [mkRow db (ctxTenantId ctx1) (ctxUserId ctx1) b1 cfg1 lg1],
          nextId := db.nextId + 1 }
      ctx2 b2 cfg2 lg2 hv2 hc2 hok2 htr2 hex2' hl2
    exact ⟨_, _, _, _, h1, h2⟩

theorem claim3_uniqueness_per_owner_witness :
    handlePOST
        ⟨[{ id := 1, tenantId := "t", name := "X", description := none,
            entityType := "users", filterConfig := .structured Json.null,
            filterLogic := "AND", isPublic := false, isDefault := false,
            icon := none, color := none, usageCount := 0, lastUsedAt := none,
            createdAt := 0, updatedAt := 0, createdBy := "u" }], [], 2, 0⟩
        ⟨some "u", some "t"⟩
        ⟨some "X", none, none, some (Json.obj .nil), none, none, none⟩ =
      (.conflict "Preset with this name already exists",
        ⟨[{ id := 1, tenantId := "t", name := "X", description := none,
            entityType := "users", filterConfig := .structured Json.null,
            filterLogic := "AND", isPublic := false, isDefault := false,
            icon := none, color := none, usageCount := 0, lastUsedAt := none,
            createdAt := 0, updatedAt := 0, createdBy := "u" }], [], 2, 0⟩, [.read]) ∧
    (∃ v1 db1 v2 db2,
      handlePOST ⟨[], [], 0, 0⟩ ⟨some "u1", some "t"⟩
          ⟨some "X", none, none, some (Json.obj .nil), none, none, none⟩ =
        (.created v1, db1, [.read, .write]) ∧
      handlePOST db1 ⟨some "u2", some "t"⟩
          ⟨some "X", none, none, some (Json.obj .nil), none, none, none⟩ =
        (.created v2, db2, [.read, .write])) := by
  constructor
  · exact claim3_uniqueness_per_owner.1 _ ⟨some "u", some "t"⟩ _ (Json.obj .nil) _
      (by decide) rfl (by decide) rfl (List.mem_cons_self _ _) rfl rfl rfl
  · exact claim3_uniqueness_per_owner.2 ⟨[], [], 0, 0⟩ ⟨some "u1", some "t"⟩
      ⟨some "u2", some "t"⟩ _ _ (Json.obj .nil) (Json.obj .nil) "AND" "AND"
      (by decide) (by decide) rfl (by decide) rfl (by decide) rfl rfl (by decide) rfl
      rfl rfl rfl rfl rfl

/-- C5: every successful list response is sorted by isDefault
descending, then usageCount descending, then createdAt descending, the
most-recently-created first among ties. -/
theorem claim5_ordering (db : Store) (ctx : TenantCtx) (q : ListQuery)
    (vs : List PresetView) (ops : List StorageOp)
    (h : handleGET db ctx q = (.ok vs, ops)) :
    vs.Pairwise (fun a b =>
      keyGE a.isDefault a.usageCount a.createdAt b.isDefault b.usageCount b.createdAt =
        true) := by
  unfold handleGET at h
  by_cases hv : ctxValid ctx = true
  · rw [if_pos hv] at h
    cases hw : viewRows db (getSortedRows db ctx q) with
    | none => simp only [hw] at h; simp at h
    | some ws =>
      simp only [hw] at h
      simp only [Prod.mk.injEq, ApiResponse.ok.injEq] at h
      obtain ⟨hws, hops⟩ := h
      subst hws
      have hf2 := viewRows_forall2 _ _ _ hw
      have hsorted : (getSortedRows db ctx q).Pairwise (fun a b => rowGE a b = true) :=
        pairwise_insertionSort rowGE rowGE_trans rowGE_total _
      refine pairwise_of_forall2 (fun a b => rowGE a b = true) _ _ _ _ ?_ hf2 hsorted
      intro a bb a2 b2 hab ha2b2 hr
      obtain ⟨hd, hu, hc, _, _⟩ := rowToView_fields _ _ _ hab
      obtain ⟨hd2, hu2, hc2, _, _⟩ := rowToView_fields _ _ _ ha2b2
      rw [hd, hu, hc, hd2, hu2, hc2]
      exact hr
  · rw [if_neg hv] at h
    simp at h

theorem claim5_ordering_witness :
    handleGET ⟨[], [], 0, 0⟩ ⟨some "u", some "t"⟩ ⟨none, none, none⟩ = (.ok [], [.read]) ∧
    ([] : List PresetView).Pairwise (fun a b =>
      keyGE a.isDefault a.usageCount a.createdAt b.isDefault b.usageCount b.createdAt =
        true) :=
  ⟨rfl, claim5_ordering ⟨[], [], 0, 0⟩ ⟨some "u", some "t"⟩ ⟨none, none, none⟩ [] [.read] rfl⟩

theorem rowToView_isSome (db : Store) (p : PresetRow)
    (h : (readConfig p.filterConfig).isSome = true) : (rowToView db p).isSome = true := by
  obtain ⟨cfg, hcfg⟩ := Option.isSome_iff_exists.mp h
  rw [rowToView_of_readConfig db p cfg hcfg]
  rfl

/-- C6: a structured filterConfig submitted on create is returned
semantically equal from the create response, and again from a
subsequent list response that reaches the preset: serialize-on-write
then deserialize-on-read is a round trip through the handlers. -/
theorem claim6_round_trip (db : Store) (ctx : TenantCtx) (b : CreateBody) (cfg : Json)
    (logic : String) (q : ListQuery)
    (hv : ctxValid ctx = true) (hc : b.filterConfig = some cfg)
    (hok : bodyNameOk b = true) (htr : jsTruthy cfg = true)
    (hex : findExisting db (ctxTenantId ctx) (b.name.getD "") (ctxUserId ctx) = none)
    (hlog : deriveFilterLogic cfg = some logic)
    (hread : ∀ p ∈ db.presets, (readConfig p.filterConfig).isSome = true)
    (hq : queryEntityType q = b.entityType.getD "users")
    (hpub : queryIsPublic q = false) :
    ∃ v db2, handlePOST db ctx b = (.created v, db2, [.read, .write]) ∧
      v.filterConfig = cfg ∧
      ∃ vs, handleGET db2 ctx q = (.ok vs, [.read]) ∧
        ∃ w ∈ vs, w.id = db.nextId ∧ w.filterConfig = cfg := by
  have h1 := handlePOST_success db ctx b cfg logic hv hc hok htr hex hlog
  set row := mkRow db (ctxTenantId ctx) (ctxUserId ctx) b cfg logic with hrow
  set db2 : Store := { db with presets := db.presets ++ [row], nextId := db.nextId + 1 }
    with hdb2
  refine ⟨_, db2, h1, rfl, ?_⟩
  have hrcfg : readConfig row.filterConfig = some cfg := by
    rw [hrow]
    simp [mkRow, readConfig, parseJsonText_encodeJson]
  have hreadall : ∀ p ∈ db2.presets, (readConfig p.filterConfig).isSome = true := by
    intro p hp
    rw [hdb2] at hp
    rcases List.mem_append.mp hp with hp | hp
    · exact hread p hp
    · rw [List.mem_singleton.mp hp, hrcfg]
      rfl
  have hsub : ∀ p ∈ getSortedRows db2 ctx q, p ∈ db2.presets := by
    intro p hp
    exact (List.mem_filter.mp ((mem_insertionSort _ _ _).mp hp)).1
  obtain ⟨vs, hvs⟩ := viewRows_isSome db2 _
    (fun p hp => rowToView_isSome db2 p (hreadall p (hsub p hp)))
  have hmatch : row ∈ getMatchedRows db2 ctx q := by
    apply List.mem_filter.mpr
    refine ⟨?_, ?_⟩
    · rw [hdb2]
      exact List.mem_append.mpr (Or.inr (List.mem_singleton.mpr rfl))
    · simp [matchesWhere, hrow, mkRow, hq, hpub]
  have hrowsorted : row ∈ getSortedRows db2 ctx q := (mem_insertionSort _ _ _).mpr hmatch
  have hf2 := viewRows_forall2 _ _ _ hvs
  obtain ⟨w, hwvs, hw⟩ := mem_of_forall2_left _ _ _ hf2 row hrowsorted
  obtain ⟨_, _, _, hid, hwcfg⟩ := rowToView_fields _ _ _ hw
  refine ⟨vs, ?_, w, hwvs, ?_, ?_⟩
  · unfold handleGET
    rw [if_pos hv]
    simp only [hvs]
  · rw [hid, hrow]
    simp [mkRow]
  · rw [hrcfg] at hwcfg
    injection hwcfg with hwcfg
    exact hwcfg.symm

theorem claim6_round_trip_witness :
    ∃ v db2, handlePOST ⟨[], [], 0, 0⟩ ⟨some "u", some "t"⟩
        ⟨some "X", none, none, some (Json.obj (.cons "a" (Json.num 12) .nil)), none, none,
          none⟩ = (.created v, db2, [.read, .write]) ∧
      v.filterConfig = Json.obj (.cons "a" (Json.num 12) .nil) ∧
      ∃ vs, handleGET db2 ⟨some "u", some "t"⟩ ⟨none, none, none⟩ = (.ok vs, [.read]) ∧
        ∃ w ∈ vs, w.id = 0 ∧ w.filterConfig = Json.obj (.cons "a" (Json.num 12) .nil) :=
  claim6_round_trip ⟨[], [], 0, 0⟩ ⟨some "u", some "t"⟩ _ _ "AND" ⟨none, none, none⟩
    (by decide) rfl (by decide) rfl rfl (by decide) (by simp) rfl rfl
